import Mathlib

/-! A sequential model of the resizing ring buffer `ColaCircular` of src/Parte1.cpp.

The class `ColaCircular` keeps a `std::vector<int> cola` together with the
`size_t` fields `tam_max`, `inicio`, `fin` and `elementos`.  Every member
function runs entirely under the one mutex, so each call is modelled as one
atomic step on the record of these five fields.

Modelling conventions.

* `size_t` values are `Nat`.  `tam_max` always equals `cola.size()` (every
  assignment to `tam_max` is followed by `cola.resize(tam_max)`), and a
  `std::vector<int>` cannot exceed `max_size() < 2^62`, so `tam_max * 2` and
  `fin + 1` never wrap; `--elementos` only runs after the wait predicate
  `elementos > 0` held, so it never wraps either.  The constructor's
  `cola.resize` can throw and is modelled so (`construir`); the queue
  operations are modelled with memory to spare.
* `cola[i]` is `std::vector::operator[]`: an index outside the vector is
  undefined behaviour.  The model stops with `Outcome.outOfBounds` there.
* The condition-variable waits are modelled for a single caller: a wait whose
  predicate is false and that nobody else can make true either never returns
  (`Outcome.blocks`, for `agregar`) or runs into its timeout (`extraer`).
* The log stream is write-only and never read back; it is left out.
-/

set_option autoImplicit false
set_option linter.unusedVariables false

/-- The result of running a member function in the sequential model. -/
inductive Outcome (α : Type) where
  /-- The call returned. -/
  | ok (a : α)
  /-- The call waits forever on its condition variable. -/
  | blocks
  /-- The call indexed `cola` outside its bounds (undefined behaviour). -/
  | outOfBounds
  deriving DecidableEq, Repr

/-- The data members of `class ColaCircular` (mutex, condition variables and
log stream left out). -/
structure ColaCircular where
  /-- The field `std::vector<int> cola`. -/
  cola : List Int
  /-- The field `size_t tam_max`. -/
  tam_max : Nat
  /-- The field `size_t inicio`. -/
  inicio : Nat
  /-- The field `size_t fin`. -/
  fin : Nat
  /-- The field `size_t elementos`. -/
  elementos : Nat
  deriving DecidableEq, Repr

/-- The call `std::vector<int>::resize(n)`: keeps the first `n` elements and
pads with value-initialised (zero) elements up to length `n`. -/
def resize (v : List Int) (n : Nat) : List Int :=
  v.take n ++ List.replicate (n - v.length) 0

/-- Why the constructor of `ColaCircular` throws. -/
inductive ErrorConstruccion where
  /-- The call `cola.resize(tam_max)` threw: `std::length_error` for a size
  above `max_size()`, `std::bad_alloc` for one the allocator refuses. -/
  | almacen
  /-- The log file did not open and the constructor threw
  `std::runtime_error("No se pudo abrir el archivo de log.")`. -/
  | registro
  deriving DecidableEq, Repr

/-- The conversion of an `int` argument to a 64-bit `size_t` parameter, as for
`tam_inicial` in the call `ColaCircular cola(tam_inicial, log_file)` of
`main`. -/
def aSizeT (x : Int) : Nat :=
  (x % 18446744073709551616).toNat

namespace ColaCircular

/-- The constructor `ColaCircular::ColaCircular(tam, log_file)`.  The body
first runs `cola.resize(tam_max)`, which throws for a size above `limite`,
and then `log.open(log_file)`; the flag `logAbre` says whether that succeeds,
and when it does not the constructor throws `std::runtime_error`.  The bound
`limite` is the largest size `cola.resize` reaches where the program runs (at
most `std::vector<int>::max_size()`, itself below `2^63`); the source does not
fix it, so it is a parameter. -/
def construir (limite tam : Nat) (logAbre : Bool) :
    Except ErrorConstruccion ColaCircular :=
  let q : ColaCircular :=
    { cola := resize [] tam, tam_max := tam, inicio := 0, fin := 0, elementos := 0 }
  if tam > limite then
    Except.error ErrorConstruccion.almacen
  else if !logAbre then
    Except.error ErrorConstruccion.registro
  else
    Except.ok q

/-- The freshly constructed queue of capacity `tam`: the member initialisers
`tam_max(tam), inicio(0), fin(0), elementos(0)` followed by
`cola.resize(tam_max)`, with the log file opened. -/
def nueva (tam : Nat) : ColaCircular :=
  { cola := resize [] tam, tam_max := tam, inicio := 0, fin := 0, elementos := 0 }

/-- The method `ColaCircular::duplicarTamano`. -/
def duplicarTamano (s : ColaCircular) : ColaCircular :=
  let t := s.tam_max * 2
  { s with tam_max := t, cola := resize s.cola t }

/-- The method `ColaCircular::reducirTamano`. -/
def reducirTamano (s : ColaCircular) : ColaCircular :=
  let t := s.tam_max / 2
  { s with tam_max := t, cola := resize s.cola t }

/-- The method `ColaCircular::agregar(item)` for a single caller. -/
def agregar (s : ColaCircular) (item : Int) : Outcome ColaCircular :=
  if ¬ (s.elementos < s.tam_max) then
    Outcome.blocks
  else if s.fin < s.cola.length then
    let s1 : ColaCircular :=
      { s with cola := s.cola.set s.fin item,
               fin := (s.fin + 1) % s.tam_max,
               elementos := s.elementos + 1 }
    if s1.elementos = s1.tam_max then
      Outcome.ok (duplicarTamano s1)
    else
      Outcome.ok s1
  else
    Outcome.outOfBounds

/-- The method `ColaCircular::extraer(item, tiempo_espera)` for a single
caller.  The result pairs the value left in `item` (`none` when the call
returns `false`, `some v` when it returns `true`) with the state afterwards.
With no other thread the timed wait returns `elementos > 0` as it is on
entry, whatever `tiempo_espera` is. -/
def extraer (s : ColaCircular) (tiempo_espera : Int) : Outcome (Option Int × ColaCircular) :=
  if ¬ (s.elementos > 0) then
    Outcome.ok (none, s)
  else
    match s.cola[s.inicio]? with
    | none => Outcome.outOfBounds
    | some item =>
      let s1 : ColaCircular :=
        { s with inicio := (s.inicio + 1) % s.tam_max,
                 elementos := s.elementos - 1 }
      if s1.tam_max > 2 ∧ s1.elementos ≤ s1.tam_max / 4 then
        Outcome.ok (some item, reducirTamano s1)
      else
        Outcome.ok (some item, s1)

end ColaCircular

/-- The construction `ColaCircular cola(tam_inicial, log_file)` in `main`,
where `tam_inicial` is the `int` parsed from the `-s` argument. -/
def mainConstruye (limite : Nat) (tam_inicial : Int) (logAbre : Bool) :
    Except ErrorConstruccion ColaCircular :=
  ColaCircular.construir limite (aSizeT tam_inicial) logAbre

/-- One call made by the single caller of a sequential run. -/
inductive Op where
  /-- The call `agregar(item)`. -/
  | agregar (item : Int)
  /-- The call `extraer(item, tiempo_espera)`. -/
  | extraer (tiempo_espera : Int)
  deriving DecidableEq, Repr

/-- Runs the calls `ops` in order from state `s`, collecting in `outs` the
items handed back by the calls of `extraer` that returned `true`.  The run
stops at the first call that does not return. -/
def ejecutar : ColaCircular → List Int → List Op → Outcome (ColaCircular × List Int)
  | s, outs, [] => Outcome.ok (s, outs)
  | s, outs, Op.agregar item :: ops =>
    match s.agregar item with
    | Outcome.ok s1 => ejecutar s1 outs ops
    | Outcome.blocks => Outcome.blocks
    | Outcome.outOfBounds => Outcome.outOfBounds
  | s, outs, Op.extraer t :: ops =>
    match s.extraer t with
    | Outcome.ok (some item, s1) => ejecutar s1 (outs ++ [item]) ops
    | Outcome.ok (none, s1) => ejecutar s1 outs ops
    | Outcome.blocks => Outcome.blocks
    | Outcome.outOfBounds => Outcome.outOfBounds

/-- The items passed to `agregar` in `ops`, in call order. -/
def agregados : List Op → List Int
  | [] => []
  | Op.agregar item :: ops => item :: agregados ops
  | Op.extraer _ :: ops => agregados ops

/-- State `s` is reachable from the freshly constructed queue of capacity `c`
by a sequence of calls that all return. -/
def Alcanzable (c : Nat) (s : ColaCircular) : Prop :=
  ∃ ops outs, ejecutar (ColaCircular.nueva c) [] ops = Outcome.ok (s, outs)


/-- A 32-bit signed `int` result: the value `x` reduced into
`[-2^31, 2^31)` (two's complement wrap-around). -/
def int32 (x : Int) : Int :=
  (x + 2147483648) % 4294967296 - 2147483648

/-- The payload `int item = id * 100 + i` computed in `productor`. -/
def itemProductor (id i : Int) : Int :=
  int32 (int32 (id * 100) + i)

/-- The calls made by `productor(cola, id)`: `agregar(id * 100 + i)` for
`i = 0, ..., 9` (the sleeps between them left out). -/
def productor (id : Int) : List Op :=
  (List.range 10).map (fun i => Op.agregar (itemProductor id i))

/-! A model of the page-replacement simulators of src/Parte2.cpp.

Each `simulate` is a loop over the reference list; the models recurse over
the part of the list not yet read and carry the loop's local variables.
A `std::set<int>` is a duplicate-free list kept in ascending order, the order
in which the range-for of `Optimo::simulate` visits it.  `numFrames` is taken
as a natural number (every claim is about `numFrames >= 1`), and the fault
counter is not wrapped (it never exceeds the length of the list). -/

/-- The result of running a simulator. -/
inductive Corrida (α : Type) where
  /-- The run returned. -/
  | ok (a : α)
  /-- The run read `front()` or `back()` of an empty container, or indexed a
  vector outside its bounds (undefined behaviour). -/
  | indefinido
  /-- The run used up the iterations granted to an inner `while` loop. -/
  | sinCombustible
  deriving DecidableEq, Repr

/-- The call `std::set<int>::insert(x)`. -/
def setInsert (x : Int) (s : List Int) : List Int :=
  if x ∈ s then s else List.orderedInsert (· ≤ ·) x s

/-- The constant `INT_MAX`. -/
def INT_MAX : Int := 2147483647

namespace Optimo

/-- The value of `distance` for frame `f` in `Optimo::simulate`, where `resto`
is `references[i+1 ..]`: the index in `references` of the next reference to
`f`, or `INT_MAX` when there is none. -/
def distancia (i : Nat) (resto : List Int) (f : Int) : Int :=
  if f ∈ resto then ((i + 1 + resto.indexOf f : Nat) : Int) else INT_MAX

/-- The inner loop `for (int f : frames)` of `Optimo::simulate`, as a fold
over the pair `(pageToRemove, maxDistance)`. -/
def elegir (i : Nat) (resto : List Int) (frames : List Int) (inicial : Int × Int) :
    Int × Int :=
  frames.foldl
    (fun acc f => if distancia i resto f > acc.2 then (f, distancia i resto f) else acc)
    inicial

/-- The outer loop of `Optimo::simulate` from index `i` on, with
`page :: resto = references[i ..]`. -/
def loop (numFrames : Nat) : Nat → List Int → List Int → Nat → Nat
  | _, [], _, faults => faults
  | i, page :: resto, frames, faults =>
    if page ∈ frames then
      loop numFrames (i + 1) resto frames faults
    else
      let frames1 :=
        if frames.length ≥ numFrames then
          frames.erase (elegir i resto frames (-1, -1)).1
        else frames
      loop numFrames (i + 1) resto (setInsert page frames1) (faults + 1)

/-- The method `Optimo::simulate(references, numFrames)`. -/
def simulate (references : List Int) (numFrames : Nat) : Nat :=
  loop numFrames 0 references [] 0

end Optimo

namespace FIFO

/-- The loop of `FIFO::simulate`; `frames` is the `std::queue` (front first),
`frameSet` the `std::set`. -/
def loop (numFrames : Nat) : List Int → List Int → List Int → Nat → Corrida Nat
  | [], _, _, faults => Corrida.ok faults
  | page :: resto, frames, frameSet, faults =>
    if page ∈ frameSet then
      loop numFrames resto frames frameSet faults
    else if frames.length ≥ numFrames then
      match frames with
      | [] => Corrida.indefinido
      | toRemove :: frames1 =>
        loop numFrames resto (frames1 ++ [page]) (setInsert page (frameSet.erase toRemove))
          (faults + 1)
    else
      loop numFrames resto (frames ++ [page]) (setInsert page frameSet) (faults + 1)

/-- The method `FIFO::simulate(references, numFrames)`. -/
def simulate (references : List Int) (numFrames : Nat) : Corrida Nat :=
  loop numFrames references [] [] 0

end FIFO

namespace LRU

/-- The loop of `LRU::simulate`; `frames` is the `std::list` (front first),
`frameSet` the `std::set`. -/
def loop (numFrames : Nat) : List Int → List Int → List Int → Nat → Corrida Nat
  | [], _, _, faults => Corrida.ok faults
  | page :: resto, frames, frameSet, faults =>
    if page ∈ frameSet then
      loop numFrames resto (page :: frames.filter (fun f => f ≠ page))
        (setInsert page frameSet) faults
    else if frames.length ≥ numFrames then
      match frames.getLast? with
      | none => Corrida.indefinido
      | some toRemove =>
        loop numFrames resto (page :: frames.dropLast)
          (setInsert page (frameSet.erase toRemove)) (faults + 1)
    else
      loop numFrames resto (page :: frames) (setInsert page frameSet) (faults + 1)

/-- The method `LRU::simulate(references, numFrames)`. -/
def simulate (references : List Int) (numFrames : Nat) : Corrida Nat :=
  loop numFrames references [] [] 0

end LRU

namespace Clock

/-- The inner loop `while (useBit[pointer])` of `Clock::simulate`, allowed at
most `fuel` iterations.  It returns the use bits and the pointer at exit. -/
def barrer (numFrames : Nat) : Nat → List Bool → Nat → Corrida (List Bool × Nat)
  | 0, useBit, pointer =>
    match useBit[pointer]? with
    | none => Corrida.indefinido
    | some false => Corrida.ok (useBit, pointer)
    | some true => Corrida.sinCombustible
  | fuel + 1, useBit, pointer =>
    match useBit[pointer]? with
    | none => Corrida.indefinido
    | some false => Corrida.ok (useBit, pointer)
    | some true =>
      barrer numFrames fuel (useBit.set pointer false) ((pointer + 1) % numFrames)

/-- The loop of `Clock::simulate`, each run of the inner loop being allowed
`fuel` iterations. -/
def loop (fuel numFrames : Nat) :
    List Int → List Int → List Bool → Nat → Nat → Corrida Nat
  | [], _, _, _, faults => Corrida.ok faults
  | page :: resto, frames, useBit, pointer, faults =>
    if page ∈ frames then
      if frames.indexOf page < useBit.length then
        loop fuel numFrames resto frames (useBit.set (frames.indexOf page) true) pointer faults
      else Corrida.indefinido
    else
      match barrer numFrames fuel useBit pointer with
      | Corrida.ok (useBit1, pointer1) =>
        if pointer1 < frames.length ∧ pointer1 < useBit1.length then
          loop fuel numFrames resto (frames.set pointer1 page) (useBit1.set pointer1 true)
            ((pointer1 + 1) % numFrames) (faults + 1)
        else Corrida.indefinido
      | Corrida.indefinido => Corrida.indefinido
      | Corrida.sinCombustible => Corrida.sinCombustible

/-- The method `Clock::simulate(references, numFrames)` with `fuel` iterations
granted to each run of the inner loop. -/
def simulateCon (fuel : Nat) (references : List Int) (numFrames : Nat) : Corrida Nat :=
  loop fuel numFrames references (List.replicate numFrames (-1))
    (List.replicate numFrames false) 0 0

/-- The method `Clock::simulate(references, numFrames)`; each run of the inner
loop is granted `numFrames` iterations. -/
def simulate (references : List Int) (numFrames : Nat) : Corrida Nat :=
  simulateCon numFrames references numFrames

end Clock

/-- The payloads of the producers with ids 1, 2, 3, 4 in the order in which
they are enqueued when the producers take turns: the first payload of each,
then the second of each, and so on. -/
def turnos : List Int :=
  (List.range 10).flatMap (fun i => [1, 2, 3, 4].map (fun id => itemProductor id i))

/-- A schedule of calls on the shared queue: each `agregar` of `items`, in
order, followed by as many calls of `extraer` (by whichever consumer) as
`counts` says.  Every call runs under the one mutex, so a concurrent
execution is such a sequence of calls. -/
def planificar (t : Int) : List Int → List Nat → List Op
  | item :: items, n :: counts =>
    Op.agregar item :: (List.replicate n (Op.extraer t) ++ planificar t items counts)
  | _, _ => []

/-- Whether a call is an `agregar` made by producer `id`. -/
def deProductor (id : Int) : Op → Bool
  | Op.agregar item => item / 100 == id
  | Op.extraer _ => false

/-- Whether a call is an `extraer`. -/
def esExtraer : Op → Bool
  | Op.agregar _ => false
  | Op.extraer _ => true

/-- The schedule in which every `agregar` is followed by one `extraer`. -/
def planAlternado : List Op :=
  planificar 5 turnos (List.replicate 40 1)

/-- The schedule in which, of every three calls of `agregar`, the first two
are each followed by one `extraer`, and the last `agregar` is followed by the
remaining 14 calls of `extraer`. -/
def planDosDeTres : List Op :=
  planificar 5 turnos
    [1, 1, 0, 1, 1, 0, 1, 1, 0, 1, 1, 0, 1, 1, 0, 1, 1, 0, 1, 1, 0, 1, 1, 0, 1, 1, 0,
     1, 1, 0, 1, 1, 0, 1, 1, 0, 1, 1, 0, 14]

/-! ## Shared lemmas -/

theorem resize_length (v : List Int) (n : Nat) : (resize v n).length = n := by
  simp only [resize, List.length_append, List.length_take, List.length_replicate]
  omega

theorem construir_abre (limite tam : Nat) (h : tam ≤ limite) :
    ColaCircular.construir limite tam true = Except.ok (ColaCircular.nueva tam) := by
  unfold ColaCircular.construir ColaCircular.nueva
  rw [if_neg (by omega)]
  rfl

/-- A property kept by every returning `agregar` and `extraer` is kept by
every returning run. -/
theorem ejecutar_preserva (P : ColaCircular → Prop)
    (hA : ∀ s item s1, P s → s.agregar item = Outcome.ok s1 → P s1)
    (hE : ∀ s t r s1, P s → s.extraer t = Outcome.ok (r, s1) → P s1) :
    ∀ (ops : List Op) (s : ColaCircular) (outs : List Int) (s2 : ColaCircular)
      (outs2 : List Int),
      P s → ejecutar s outs ops = Outcome.ok (s2, outs2) → P s2 := by
  intro ops
  induction ops with
  | nil =>
    intro s outs s2 outs2 hs h
    simp only [ejecutar, Outcome.ok.injEq, Prod.mk.injEq] at h
    exact h.1 ▸ hs
  | cons op ops ih =>
    intro s outs s2 outs2 hs h
    cases op with
    | agregar item =>
      simp only [ejecutar] at h
      split at h
      · next s1 h1 => exact ih s1 outs s2 outs2 (hA s item s1 hs h1) h
      · exact absurd h (by simp)
      · exact absurd h (by simp)
    | extraer t =>
      simp only [ejecutar] at h
      split at h
      · next item s1 h1 => exact ih s1 _ s2 outs2 (hE s t _ s1 hs h1) h
      · next s1 h1 => exact ih s1 _ s2 outs2 (hE s t _ s1 hs h1) h
      · exact absurd h (by simp)
      · exact absurd h (by simp)

/-- What a returning `agregar` leaves in the fields. -/
theorem agregar_ok_campos (s : ColaCircular) (item : Int) (s1 : ColaCircular)
    (h : s.agregar item = Outcome.ok s1) :
    s.elementos < s.tam_max ∧ s.fin < s.cola.length ∧ s1.elementos = s.elementos + 1 ∧
      s1.tam_max = (if s.elementos + 1 = s.tam_max then s.tam_max * 2 else s.tam_max) ∧
      s1.cola.length = (if s.elementos + 1 = s.tam_max then s.tam_max * 2 else s.cola.length) ∧
      s1.inicio = s.inicio ∧ s1.fin = (s.fin + 1) % s.tam_max := by
  by_cases h1 : s.elementos < s.tam_max
  · by_cases h2 : s.fin < s.cola.length
    · by_cases h3 : s.elementos + 1 = s.tam_max
      · simp only [ColaCircular.agregar, h1, h2, h3, not_true_eq_false, if_false, if_true,
          Outcome.ok.injEq] at h
        subst h
        simp [ColaCircular.duplicarTamano, resize_length, h1, h2, h3]
      · simp only [ColaCircular.agregar, h1, h2, h3, not_true_eq_false, if_false, if_true,
          Outcome.ok.injEq] at h
        subst h
        simp [h1, h2, h3]
    · simp [ColaCircular.agregar, h1, h2] at h
  · simp [ColaCircular.agregar, h1] at h

/-- What a call of `extraer` that returns `true` leaves in the fields. -/
theorem extraer_ok_campos (s : ColaCircular) (t : Int) (item : Int) (s1 : ColaCircular)
    (h : s.extraer t = Outcome.ok (some item, s1)) :
    0 < s.elementos ∧ s.cola[s.inicio]? = some item ∧ s1.elementos = s.elementos - 1 ∧
      s1.tam_max = (if s.tam_max > 2 ∧ s.elementos - 1 ≤ s.tam_max / 4
        then s.tam_max / 2 else s.tam_max) ∧
      s1.inicio = (s.inicio + 1) % s.tam_max ∧ s1.fin = s.fin := by
  by_cases h1 : s.elementos > 0
  · cases hv : s.cola[s.inicio]? with
    | none =>
      simp only [ColaCircular.extraer, h1, hv, not_true_eq_false, if_false] at h
      exact absurd h (by simp)
    | some v =>
      by_cases h2 : s.tam_max > 2 ∧ s.elementos - 1 ≤ s.tam_max / 4
      · simp only [ColaCircular.extraer, h1, hv, h2, not_true_eq_false, if_false, if_true,
          and_self, Outcome.ok.injEq, Prod.mk.injEq, Option.some.injEq] at h
        obtain ⟨hi, hs⟩ := h
        subst hs hi
        simp only [ColaCircular.reducirTamano, h2, and_self, if_true, and_true]
        exact h1
      · simp only [ColaCircular.extraer, h1, hv, h2, not_true_eq_false, if_false,
          Outcome.ok.injEq, Prod.mk.injEq, Option.some.injEq] at h
        obtain ⟨hi, hs⟩ := h
        subst hs hi
        simp only [h2, if_false, and_true]
        exact h1
  · simp only [ColaCircular.extraer, h1, not_false_eq_true, if_true] at h
    exact absurd h (by simp)

/-- A call of `extraer` that returns `false` found the queue empty and leaves
the state as it was. -/
theorem extraer_none_estado (s : ColaCircular) (t : Int) (s1 : ColaCircular)
    (h : s.extraer t = Outcome.ok (none, s1)) : s.elementos = 0 ∧ s1 = s := by
  by_cases h1 : s.elementos > 0
  · cases hv : s.cola[s.inicio]? with
    | none =>
      simp only [ColaCircular.extraer, h1, hv, not_true_eq_false, if_false] at h
      exact absurd h (by simp)
    | some v =>
      by_cases h2 : s.tam_max > 2 ∧ s.elementos - 1 ≤ s.tam_max / 4
      · simp only [ColaCircular.extraer, h1, hv, h2, not_true_eq_false, if_false, if_true,
          and_self] at h
        exact absurd h (by simp)
      · simp only [ColaCircular.extraer, h1, hv, h2, not_true_eq_false, if_false] at h
        exact absurd h (by simp)
  · simp only [ColaCircular.extraer, h1, not_false_eq_true, if_true, Outcome.ok.injEq,
      Prod.mk.injEq, true_and] at h
    exact ⟨by omega, h.symm⟩

/-- With room in the queue and `fin` inside the store, `agregar` returns. -/
theorem agregar_retorna (s : ColaCircular) (item : Int)
    (h1 : s.elementos < s.tam_max) (h2 : s.fin < s.cola.length) :
    ∃ s1, s.agregar item = Outcome.ok s1 := by
  by_cases h3 : s.elementos + 1 = s.tam_max
  · simp only [ColaCircular.agregar, h1, h2, h3, not_true_eq_false, if_false, if_true]
    exact ⟨_, rfl⟩
  · simp only [ColaCircular.agregar, h1, h2, h3, not_true_eq_false, if_false, if_true]
    exact ⟨_, rfl⟩

/-- With an item in the queue and `inicio` inside the store, `extraer` returns
`true`. -/
theorem extraer_retorna (s : ColaCircular) (t : Int)
    (h1 : 0 < s.elementos) (h2 : s.inicio < s.cola.length) :
    ∃ item s1, s.extraer t = Outcome.ok (some item, s1) := by
  have hv : s.cola[s.inicio]? = some (s.cola[s.inicio]) := List.getElem?_eq_getElem h2
  have h1' : s.elementos > 0 := h1
  by_cases h3 : s.tam_max > 2 ∧ s.elementos - 1 ≤ s.tam_max / 4
  · simp only [ColaCircular.extraer, h1', hv, h3, not_true_eq_false, if_false, if_true,
      and_self]
    exact ⟨_, _, rfl⟩
  · simp only [ColaCircular.extraer, h1', hv, h3, not_true_eq_false, if_false]
    exact ⟨_, _, rfl⟩

/-- The timed wait of `extraer` does not look at its timeout when no other
thread runs. -/
theorem extraer_sin_tiempo (s : ColaCircular) (t u : Int) : s.extraer t = s.extraer u := rfl

/-- After every returning call the queue holds strictly fewer items than its
capacity. -/
theorem agregar_menor (s : ColaCircular) (item : Int) (s1 : ColaCircular)
    (h : s.agregar item = Outcome.ok s1) : s1.elementos < s1.tam_max := by
  obtain ⟨h1, -, he, ht, -⟩ := agregar_ok_campos s item s1 h
  rw [he, ht]
  split_ifs <;> omega

theorem extraer_menor (s : ColaCircular) (t : Int) (r : Option Int) (s1 : ColaCircular)
    (hs : s.elementos < s.tam_max) (h : s.extraer t = Outcome.ok (r, s1)) :
    s1.elementos < s1.tam_max := by
  cases r with
  | none =>
    obtain ⟨-, he⟩ := extraer_none_estado s t s1 h
    rw [he]; exact hs
  | some item =>
    obtain ⟨h1, -, he, ht, -⟩ := extraer_ok_campos s t item s1 h
    rw [he, ht]
    split_ifs with h2 <;> omega

theorem alcanzable_menor (c : Nat) (hc : 0 < c) (s : ColaCircular) (h : Alcanzable c s) :
    s.elementos < s.tam_max := by
  obtain ⟨ops, outs, hrun⟩ := h
  exact ejecutar_preserva (fun q => q.elementos < q.tam_max)
    (fun q item q1 _ hq => agregar_menor q item q1 hq)
    (fun q t r q1 hP hq => extraer_menor q t r q1 hP hq)
    ops (ColaCircular.nueva c) [] s outs hc hrun

/-! ## Claims on the queue -/

/-- C1 (FIFO / no loss), evaluated where the code breaks it: on a fresh queue
of capacity 2 the calls `agregar(1)`, `agregar(2)`, `agregar(3)`, `extraer`
all return, and the one `extraer` hands back 3.  The second `agregar` wraps
`fin` to 0 and doubles the store without moving `fin`, so the third one
overwrites slot 0, which still holds the oldest item 1.  The returned
sequence `[3]` is not an initial segment of the enqueued sequence
`[1, 2, 3]`, and item 1 is gone from the store. -/
theorem fifo_broken_by_growth :
    ejecutar (ColaCircular.nueva 2) []
        [Op.agregar 1, Op.agregar 2, Op.agregar 3, Op.extraer 1]
      = Outcome.ok ({ cola := [3, 2, 0, 0], tam_max := 4, inicio := 1, fin := 1,
                      elementos := 2 }, [3]) ∧
    agregados [Op.agregar 1, Op.agregar 2, Op.agregar 3, Op.extraer 1] = [1, 2, 3] ∧
    ¬ ([3] <+: [1, 2, 3]) ∧
    (1 : Int) ∉ [3, 2, 0, 0] := by
  decide

/-- C2 (shrink keeps the survivors), evaluated where the code breaks it.  On a
fresh queue of capacity 8 holding the items 1..5, three calls of `extraer`
leave count 2 and capacity 4 as claimed, but `reducirTamano` has cut the
store down to its first four slots while the survivor 5 sat in slot 4: the
next two calls hand back 4 and then 1 instead of 4 and then 5.  With the
items 1..3 the survivors are 2 and 3; the call that hands back 2 shrinks the
store to two slots and leaves `inicio = 2`, so the call after it reads
outside the store. -/
theorem shrink_loses_survivors :
    ejecutar (ColaCircular.nueva 8) []
        [Op.agregar 1, Op.agregar 2, Op.agregar 3, Op.agregar 4, Op.agregar 5,
         Op.extraer 1, Op.extraer 1, Op.extraer 1]
      = Outcome.ok ({ cola := [1, 2, 3, 4], tam_max := 4, inicio := 3, fin := 5,
                      elementos := 2 }, [1, 2, 3]) ∧
    ejecutar { cola := [1, 2, 3, 4], tam_max := 4, inicio := 3, fin := 5, elementos := 2 } []
        [Op.extraer 1, Op.extraer 1]
      = Outcome.ok ({ cola := [1, 2], tam_max := 2, inicio := 1, fin := 5,
                      elementos := 0 }, [4, 1]) ∧
    ejecutar (ColaCircular.nueva 8) []
        [Op.agregar 1, Op.agregar 2, Op.agregar 3, Op.extraer 1]
      = Outcome.ok ({ cola := [1, 2, 3, 0], tam_max := 4, inicio := 1, fin := 3,
                      elementos := 2 }, [1]) ∧
    ejecutar { cola := [1, 2, 3, 0], tam_max := 4, inicio := 1, fin := 3, elementos := 2 } []
        [Op.extraer 1]
      = Outcome.ok ({ cola := [1, 2], tam_max := 2, inicio := 2, fin := 3,
                      elementos := 1 }, [2]) ∧
    ejecutar { cola := [1, 2, 3, 0], tam_max := 4, inicio := 1, fin := 3, elementos := 2 } []
        [Op.extraer 1, Op.extraer 1]
      = Outcome.outOfBounds := by
  decide

/-- The growth rule where the write is defined.  In a state whose tail index
lies inside the store (so that `cola[fin] = item` is in bounds): if `tam_max > 0` and
`elementos + 1 = tam_max`, then `agregar` returns a state whose `tam_max` is
twice the old one and whose `elementos` is the old `tam_max`, hence
`elementos < tam_max`, and a following `agregar` returns without waiting; if
`elementos + 1 < tam_max`, then `agregar` returns and leaves `tam_max` as it
was. -/
theorem agregar_growth_trigger (s : ColaCircular) (item : Int)
    (hfin : s.fin < s.cola.length) :
    (0 < s.tam_max → s.elementos + 1 = s.tam_max →
      ∃ s1, s.agregar item = Outcome.ok s1 ∧ s1.tam_max = 2 * s.tam_max ∧
        s1.elementos = s.tam_max ∧ s1.elementos < s1.tam_max ∧
        ∀ item2, s1.agregar item2 ≠ Outcome.blocks ∧ ∃ s2, s1.agregar item2 = Outcome.ok s2) ∧
    (s.elementos + 1 < s.tam_max →
      ∃ s1, s.agregar item = Outcome.ok s1 ∧ s1.tam_max = s.tam_max) := by
  constructor
  · intro hpos hfull
    obtain ⟨s1, h1⟩ := agregar_retorna s item (by omega) hfin
    obtain ⟨-, -, he, ht, hl, -, hf⟩ := agregar_ok_campos s item s1 h1
    rw [if_pos hfull] at ht hl
    have hlt : s1.elementos < s1.tam_max := by omega
    have hfin1 : s1.fin < s1.cola.length := by
      rw [hf, hl]
      have := Nat.mod_lt (s.fin + 1) hpos
      omega
    refine ⟨s1, h1, by omega, by omega, hlt, ?_⟩
    intro item2
    obtain ⟨s2, h2⟩ := agregar_retorna s1 item2 hlt hfin1
    exact ⟨by rw [h2]; simp, s2, h2⟩
  · intro hroom
    obtain ⟨s1, h1⟩ := agregar_retorna s item (by omega) hfin
    obtain ⟨-, -, -, ht, -⟩ := agregar_ok_campos s item s1 h1
    rw [if_neg (by omega)] at ht
    exact ⟨s1, h1, ht⟩

/-- The growth rule at concrete states: the second `agregar` into a fresh queue
of capacity 2 doubles it, and an `agregar` into a fresh queue of capacity 4
does not. -/
theorem agregar_growth_trigger_witness :
    (∃ s1, ColaCircular.agregar
        { cola := [1, 0], tam_max := 2, inicio := 0, fin := 1, elementos := 1 } 2
          = Outcome.ok s1 ∧ s1.tam_max = 2 * 2 ∧ s1.elementos = 2 ∧
        s1.elementos < s1.tam_max ∧
        ∀ item2, s1.agregar item2 ≠ Outcome.blocks ∧ ∃ s2, s1.agregar item2 = Outcome.ok s2) ∧
    (∃ s1, (ColaCircular.nueva 4).agregar 1 = Outcome.ok s1 ∧ s1.tam_max = 4) :=
  ⟨(agregar_growth_trigger
      { cola := [1, 0], tam_max := 2, inicio := 0, fin := 1, elementos := 1 } 2
      (by decide)).1 (by decide) (by decide),
   (agregar_growth_trigger (ColaCircular.nueva 4) 1 (by decide)).2 (by decide)⟩

/-- C3 (growth trigger), evaluated where the code breaks it.  From the fresh
queue of capacity 4, `agregar(1)`, `agregar(2)`, `extraer` all return and
leave capacity 2 and count 1, so `count + 1 = capacity`, with `fin = 2` on a
store of 2 slots; the next `agregar` writes `cola[2]`, outside the store,
where the claim has it return with capacity 4 and count 2.  From the fresh
queue of capacity 8, five calls of `agregar` and three of `extraer` leave
capacity 4 and count 2, so `count + 1 < capacity`, with `fin = 5` on a store
of 4 slots; the next `agregar` writes `cola[5]`, outside the store, where the
claim has it return with capacity 4. -/
theorem growth_trigger_out_of_bounds :
    ejecutar (ColaCircular.nueva 4) [] [Op.agregar 1, Op.agregar 2, Op.extraer 1]
      = Outcome.ok ({ cola := [1, 2], tam_max := 2, inicio := 1, fin := 2,
                      elementos := 1 }, [1]) ∧
    (0 : Nat) < 2 ∧ (1 : Nat) + 1 = 2 ∧
    ColaCircular.agregar
        { cola := [1, 2], tam_max := 2, inicio := 1, fin := 2, elementos := 1 } 3
      = Outcome.outOfBounds ∧
    ejecutar (ColaCircular.nueva 8) []
        [Op.agregar 1, Op.agregar 2, Op.agregar 3, Op.agregar 4, Op.agregar 5,
         Op.extraer 1, Op.extraer 1, Op.extraer 1]
      = Outcome.ok ({ cola := [1, 2, 3, 4], tam_max := 4, inicio := 3, fin := 5,
                      elementos := 2 }, [1, 2, 3]) ∧
    (2 : Nat) + 1 < 4 ∧
    ColaCircular.agregar
        { cola := [1, 2, 3, 4], tam_max := 4, inicio := 3, fin := 5, elementos := 2 } 6
      = Outcome.outOfBounds := by
  decide

/-- C4 (spec scenario).  From a fresh queue of capacity 2, `agregar(1)` then
`agregar(2)` leaves capacity 4; the first `extraer` returns 1, the second
returns 2; the queue then has count 0 and capacity 2, which is the capacity 4
halved once by the shrink rule (the first `extraer` leaves count 1, and
`1 <= 4 / 4`). -/
theorem scenario_capacity_two :
    (∃ s, ejecutar (ColaCircular.nueva 2) [] [Op.agregar 1, Op.agregar 2]
        = Outcome.ok (s, []) ∧ s.tam_max = 4 ∧ s.elementos = 2) ∧
    (∃ s1 s2,
      ejecutar (ColaCircular.nueva 2) [] [Op.agregar 1, Op.agregar 2] = Outcome.ok (s1, []) ∧
      s1.extraer 1 = Outcome.ok (some 1, s2) ∧
      ∃ s3, s2.extraer 1 = Outcome.ok (some 2, s3) ∧ s3.elementos = 0 ∧
        (s3.tam_max = 4 ∨ s3.tam_max = 4 / 2)) ∧
    ejecutar (ColaCircular.nueva 2) []
        [Op.agregar 1, Op.agregar 2, Op.extraer 1, Op.extraer 1]
      = Outcome.ok ({ cola := [1, 2], tam_max := 2, inicio := 0, fin := 0,
                      elementos := 0 }, [1, 2]) := by
  refine ⟨⟨{ cola := [1, 2, 0, 0], tam_max := 4, inicio := 0, fin := 0, elementos := 2 },
      by decide, rfl, rfl⟩,
    ⟨{ cola := [1, 2, 0, 0], tam_max := 4, inicio := 0, fin := 0, elementos := 2 },
     { cola := [1, 2], tam_max := 2, inicio := 1, fin := 0, elementos := 1 },
     by decide, by decide,
     { cola := [1, 2], tam_max := 2, inicio := 0, fin := 0, elementos := 0 },
     by decide, rfl, Or.inr (by decide)⟩, by decide⟩

/-- C5 (count bound).  For every initial capacity `c > 0`, every state reached
from the fresh queue by calls that return satisfies
`0 <= elementos <= tam_max`.  (`elementos` is only decremented after the wait
predicate `elementos > 0` held, so the unsigned counter never wraps.) -/
theorem count_within_capacity (c : Nat) (hc : 0 < c) (s : ColaCircular)
    (h : Alcanzable c s) : 0 ≤ s.elementos ∧ s.elementos ≤ s.tam_max :=
  ⟨Nat.zero_le _, Nat.le_of_lt (alcanzable_menor c hc s h)⟩

/-- C5 at the state reached from capacity 2 by two calls of `agregar` and one
of `extraer`. -/
theorem count_within_capacity_witness :
    0 < 2 ∧ Alcanzable 2 { cola := [1, 2], tam_max := 2, inicio := 1, fin := 0,
                           elementos := 1 } ∧
    (0 ≤ 1 ∧ 1 ≤ 2) :=
  ⟨by decide, ⟨[Op.agregar 1, Op.agregar 2, Op.extraer 1], [1], by decide⟩,
   count_within_capacity 2 (by decide)
     { cola := [1, 2], tam_max := 2, inicio := 1, fin := 0, elementos := 1 }
     ⟨[Op.agregar 1, Op.agregar 2, Op.extraer 1], [1], by decide⟩⟩

/-- Halving a power of two above 2 gives a power of two that is at least 2. -/
theorem mitad_potencia (m : Nat) (hm : 1 ≤ m) (h : 2 ^ m > 2) :
    ∃ n, 1 ≤ n ∧ 2 ^ m / 2 = 2 ^ n := by
  match m, hm with
  | 1, _ => simp at h
  | n + 2, _ =>
    refine ⟨n + 1, by omega, ?_⟩
    rw [Nat.pow_succ]
    exact Nat.mul_div_cancel _ (by decide)

/-- From a power-of-two capacity that is at least 2, every returning run ends
in a power-of-two capacity that is at least 2. -/
theorem alcanzable_potencia (j : Nat) (hj : 1 ≤ j) (s : ColaCircular)
    (h : Alcanzable (2 ^ j) s) : ∃ m, 1 ≤ m ∧ s.tam_max = 2 ^ m := by
  obtain ⟨ops, outs, hrun⟩ := h
  refine ejecutar_preserva (fun q => ∃ m, 1 ≤ m ∧ q.tam_max = 2 ^ m) ?_ ?_
    ops (ColaCircular.nueva (2 ^ j)) [] s outs ⟨j, hj, rfl⟩ hrun
  · intro q item q1 ⟨m, hm, hq⟩ hq1
    obtain ⟨-, -, -, ht, -⟩ := agregar_ok_campos q item q1 hq1
    split_ifs at ht
    · exact ⟨m + 1, by omega, by rw [ht, hq, Nat.pow_succ]⟩
    · exact ⟨m, hm, by rw [ht, hq]⟩
  · intro q t r q1 ⟨m, hm, hq⟩ hq1
    cases r with
    | none =>
      obtain ⟨-, he⟩ := extraer_none_estado q t q1 hq1
      exact ⟨m, hm, by rw [he, hq]⟩
    | some item =>
      obtain ⟨-, -, -, ht, -⟩ := extraer_ok_campos q t item q1 hq1
      split_ifs at ht with h2
      · obtain ⟨n, hn, hdiv⟩ := mitad_potencia m hm (by rw [← hq]; exact h2.1)
        exact ⟨n, hn, by rw [ht, hq, hdiv]⟩
      · exact ⟨m, hm, by rw [ht, hq]⟩

/-- C6 (capacity floor and shape) fails as stated.  From the fresh queue of
capacity 3, one `agregar` followed by one `extraer` leaves count 0, and since
`3 > 2` and `0 <= 3 / 4` the queue shrinks to capacity `3 / 2 = 1`: that is
below 2, and 1 is neither `3 * 2^k` nor a number with `1 * 2^k = 3`.  From
capacity 5 the same two calls shrink the queue to `5 / 2 = 2`, which is not
below 2 but is neither `5 * 2^k` nor a number with `2 * 2^k = 5`. -/
theorem capacity_floor_fails_from_three :
    2 ≤ 3 ∧
    ejecutar (ColaCircular.nueva 3) [] [Op.agregar 7, Op.extraer 1]
      = Outcome.ok ({ cola := [7], tam_max := 1, inicio := 1, fin := 1,
                      elementos := 0 }, [7]) ∧
    ¬ (2 ≤ 1) ∧
    (¬ ∃ k, 1 = 3 * 2 ^ k ∨ 1 * 2 ^ k = 3) ∧
    ejecutar (ColaCircular.nueva 5) [] [Op.agregar 7, Op.extraer 1]
      = Outcome.ok ({ cola := [7, 0], tam_max := 2, inicio := 1, fin := 1,
                      elementos := 0 }, [7]) ∧
    (¬ ∃ k, 2 = 5 * 2 ^ k ∨ 2 * 2 ^ k = 5) ∧
    ¬ (∀ c, 2 ≤ c → ∀ s, Alcanzable c s →
        2 ≤ s.tam_max ∧ ∃ k, s.tam_max = c * 2 ^ k ∨ s.tam_max * 2 ^ k = c) := by
  refine ⟨by decide, by decide, by decide, ?_, by decide, ?_, ?_⟩
  · rintro ⟨k, hk | hk⟩
    · have : 1 ≤ 2 ^ k := Nat.one_le_two_pow
      omega
    · match k with
      | 0 => simp at hk
      | n + 1 =>
        rw [Nat.pow_succ] at hk
        omega
  · rintro ⟨k, hk | hk⟩
    · have : 1 ≤ 2 ^ k := Nat.one_le_two_pow
      omega
    · omega
  · intro h
    have h3 := h 3 (by decide)
      { cola := [7], tam_max := 1, inicio := 1, fin := 1, elementos := 0 }
      ⟨[Op.agregar 7, Op.extraer 1], [7], by decide⟩
    exact absurd h3.1 (by decide)

/-- C6 as amended: for every initial capacity `c = 2^j` with `j >= 1` (a power
of two that is at least 2), every state reached by calls that return has
`tam_max >= 2`, and there is a `k` with `tam_max = c * 2^k` or
`tam_max * 2^k = c`. -/
theorem capacity_floor_power_of_two (j : Nat) (hj : 1 ≤ j) (s : ColaCircular)
    (h : Alcanzable (2 ^ j) s) :
    2 ≤ s.tam_max ∧ ∃ k, s.tam_max = 2 ^ j * 2 ^ k ∨ s.tam_max * 2 ^ k = 2 ^ j := by
  obtain ⟨m, hm, hs⟩ := alcanzable_potencia j hj s h
  constructor
  · rw [hs]
    calc 2 = 2 ^ 1 := rfl
      _ ≤ 2 ^ m := Nat.pow_le_pow_right (by decide) hm
  · by_cases hjm : j ≤ m
    · exact ⟨m - j, Or.inl (by rw [hs, ← Nat.pow_add]; congr 1; omega)⟩
    · exact ⟨j - m, Or.inr (by rw [hs, ← Nat.pow_add]; congr 1; omega)⟩

/-- C6 as amended, at the state reached from capacity `2^2 = 4` by one
`agregar` and one `extraer`, which has shrunk to capacity 2. -/
theorem capacity_floor_power_of_two_witness :
    1 ≤ 2 ∧
    Alcanzable (2 ^ 2) { cola := [1, 0], tam_max := 2, inicio := 1, fin := 1,
                         elementos := 0 } ∧
    (2 ≤ 2 ∧ ∃ k, 2 = 2 ^ 2 * 2 ^ k ∨ 2 * 2 ^ k = 2 ^ 2) :=
  ⟨by decide, ⟨[Op.agregar 1, Op.extraer 1], [1], by decide⟩,
   capacity_floor_power_of_two 2 (by decide)
     { cola := [1, 0], tam_max := 2, inicio := 1, fin := 1, elementos := 0 }
     ⟨[Op.agregar 1, Op.extraer 1], [1], by decide⟩⟩

/-- What the timed wait of `extraer` does for a single caller, for every
timeout `t`: `extraer` returns `false` exactly when `elementos = 0` on entry; when it
returns `false` the state (store, capacity, head, tail, count) is the one it
was called on; when `elementos > 0` and the head index lies inside the store
(so that the read `cola[inicio]` is defined) it returns `true`; and its
result is the same for every other timeout `u`. -/
theorem extraer_timeout_clean (s : ColaCircular) (t : Int) :
    ((∃ s1, s.extraer t = Outcome.ok (none, s1)) ↔ s.elementos = 0) ∧
    (∀ s1, s.extraer t = Outcome.ok (none, s1) → s1 = s) ∧
    (0 < s.elementos → s.inicio < s.cola.length →
      ∃ item s1, s.extraer t = Outcome.ok (some item, s1)) ∧
    (∀ u, s.extraer u = s.extraer t) := by
  refine ⟨⟨?_, ?_⟩, ?_, ?_, ?_⟩
  · rintro ⟨s1, h1⟩
    exact (extraer_none_estado s t s1 h1).1
  · intro h0
    refine ⟨s, ?_⟩
    have hn : ¬ (s.elementos > 0) := by omega
    simp only [ColaCircular.extraer, hn, not_false_eq_true, if_true]
  · intro s1 h1
    exact (extraer_none_estado s t s1 h1).2
  · intro h1 h2
    exact extraer_retorna s t h1 h2
  · intro u
    exact extraer_sin_tiempo s u t

/-- The timed wait at concrete states: on the fresh queue of capacity 2
`extraer` returns `false` and leaves the state alone, whatever the timeout;
with one item in the queue it returns `true`. -/
theorem extraer_timeout_clean_witness :
    (∃ s1, (ColaCircular.nueva 2).extraer 5 = Outcome.ok (none, s1)) ∧
    (∃ item s1, ColaCircular.extraer
        { cola := [1, 0], tam_max := 2, inicio := 0, fin := 1, elementos := 1 } 0
          = Outcome.ok (some item, s1)) :=
  ⟨(extraer_timeout_clean (ColaCircular.nueva 2) 5).1.2 (by decide),
   (extraer_timeout_clean
      { cola := [1, 0], tam_max := 2, inicio := 0, fin := 1, elementos := 1 } 0).2.2.1
      (by decide) (by decide)⟩

/-- C7 (timeout is a clean failure), evaluated where the code breaks it.  From
the fresh queue of capacity 8, three calls of `agregar` and two of `extraer`
all return and leave count 1 with `inicio = 2` on a store of 2 slots.  The
count is positive, so the wait of the next `extraer` passes at once, whatever
the timeout; but the call then reads `cola[2]`, outside the store, where the
claim has it return `true`. -/
theorem extraer_nonempty_out_of_bounds :
    ejecutar (ColaCircular.nueva 8) []
        [Op.agregar 1, Op.agregar 2, Op.agregar 3, Op.extraer 1, Op.extraer 1]
      = Outcome.ok ({ cola := [1, 2], tam_max := 2, inicio := 2, fin := 3,
                      elementos := 1 }, [1, 2]) ∧
    (0 : Nat) < 1 ∧
    (∀ t : Int, ColaCircular.extraer
        { cola := [1, 2], tam_max := 2, inicio := 2, fin := 3, elementos := 1 } t
      = Outcome.outOfBounds) := by
  exact ⟨by decide, by decide, fun _ => rfl⟩

/-- C8 (construction validates the capacity) fails as stated: with a log file
that opens, constructing with capacity 0 yields a queue (empty store,
capacity 0) instead of an error, whatever sizes the store can reach. -/
theorem construir_accepts_zero :
    (∀ limite : Nat, ColaCircular.construir limite 0 true
      = Except.ok { cola := [], tam_max := 0, inicio := 0, fin := 0, elementos := 0 }) ∧
    ¬ (0 < 0) := by
  refine ⟨fun limite => ?_, by decide⟩
  rw [construir_abre limite 0 (Nat.zero_le _)]
  rfl

/-- C8 as amended: the constructor does not reject capacity 0.  Construction
yields a queue exactly when the store can be sized (`tam <= limite`) and the
log file opens, and the queue then has `tam_max = tam`, a store of `tam`
slots, `elementos = 0` and `inicio = fin = 0`.  It fails with the error of
`cola.resize` when `tam` is above `limite`, log or no log, and with the error
of the log when the store can be sized and the log does not open.  Every
negative `-s` value reaches the constructor as a size above `2^63` and so
fails at `cola.resize`. -/
theorem construir_fails_unsized_or_unlogged (limite tam : Nat) (logAbre : Bool) :
    ((∃ q, ColaCircular.construir limite tam logAbre = Except.ok q)
      ↔ (tam ≤ limite ∧ logAbre = true)) ∧
    (∀ q, ColaCircular.construir limite tam logAbre = Except.ok q →
      q.tam_max = tam ∧ q.cola.length = tam ∧ q.elementos = 0 ∧ q.inicio = 0 ∧ q.fin = 0) ∧
    (limite < tam →
      ColaCircular.construir limite tam logAbre = Except.error ErrorConstruccion.almacen) ∧
    (tam ≤ limite → logAbre = false →
      ColaCircular.construir limite tam logAbre = Except.error ErrorConstruccion.registro) ∧
    (∀ x : Int, -2147483648 ≤ x → x < 0 → limite < 9223372036854775808 →
      mainConstruye limite x logAbre = Except.error ErrorConstruccion.almacen) := by
  have hbig : limite < tam →
      ColaCircular.construir limite tam logAbre
        = Except.error ErrorConstruccion.almacen := by
    intro h
    unfold ColaCircular.construir
    rw [if_pos h]
  have hlog : tam ≤ limite → logAbre = false →
      ColaCircular.construir limite tam logAbre
        = Except.error ErrorConstruccion.registro := by
    intro h hl
    subst hl
    unfold ColaCircular.construir
    rw [if_neg (by omega)]
    rfl
  refine ⟨⟨?_, ?_⟩, ?_, hbig, hlog, ?_⟩
  · rintro ⟨q, hq⟩
    by_cases h : tam ≤ limite
    · cases hl : logAbre with
      | true => exact ⟨h, rfl⟩
      | false =>
        rw [hlog h hl] at hq
        exact absurd hq (by simp)
    · rw [hbig (by omega)] at hq
      exact absurd hq (by simp)
  · rintro ⟨h, hl⟩
    subst hl
    exact ⟨_, construir_abre limite tam h⟩
  · intro q hq
    by_cases h : tam ≤ limite
    · cases hl : logAbre with
      | true =>
        subst hl
        rw [construir_abre limite tam h] at hq
        simp only [Except.ok.injEq] at hq
        subst hq
        exact ⟨rfl, resize_length [] tam, rfl, rfl, rfl⟩
      | false =>
        rw [hlog h hl] at hq
        exact absurd hq (by simp)
    · rw [hbig (by omega)] at hq
      exact absurd hq (by simp)
  · intro x hx1 hx2 hlim
    unfold mainConstruye ColaCircular.construir
    have hsz : aSizeT x > limite := by
      unfold aSizeT
      have h1 : x % 18446744073709551616 = x + 18446744073709551616 := by
        rw [← Int.add_emod_self]
        exact Int.emod_eq_of_lt (by omega) (by omega)
      rw [h1]
      omega
    rw [if_pos hsz]

/-- C8 as amended, with the size limit `2^61 - 1`: capacity 0 with a log that
opens yields a queue; capacity 4 with a log that does not open fails on the
log; capacity `2^61` fails on the store; and `-s -1` fails on the store. -/
theorem construir_fails_unsized_or_unlogged_witness :
    (∃ q, ColaCircular.construir 2305843009213693951 0 true = Except.ok q) ∧
    ColaCircular.construir 2305843009213693951 4 false
      = Except.error ErrorConstruccion.registro ∧
    ColaCircular.construir 2305843009213693951 2305843009213693952 true
      = Except.error ErrorConstruccion.almacen ∧
    mainConstruye 2305843009213693951 (-1) true
      = Except.error ErrorConstruccion.almacen :=
  ⟨(construir_fails_unsized_or_unlogged 2305843009213693951 0 true).1.2
      ⟨by decide, rfl⟩,
   (construir_fails_unsized_or_unlogged 2305843009213693951 4 false).2.2.2.1
      (by decide) rfl,
   (construir_fails_unsized_or_unlogged 2305843009213693951 2305843009213693952
      true).2.2.1 (by decide),
   (construir_fails_unsized_or_unlogged 2305843009213693951 0 true).2.2.2.2 (-1)
      (by decide) (by decide) (by decide)⟩

/-- C9 (concurrent delivery), evaluated where the code breaks it.  Both
schedules below interleave the calls of the four producers 1, 2, 3, 4, each
in its own order, with 40 calls of `extraer`; every call returns, every
`extraer` finds an item (none times out), and the queue ends with count 0.
In `planAlternado`, on a queue of initial capacity 1, the second `extraer`
hands back 0, which nobody enqueued, and the payload 409 is never handed
back.  In `planDosDeTres`, on a queue of initial capacity 2, the payloads
101, 102, 201, 202, 302 and 402 are never handed back, and 106, 206, 308 and
408 are handed back twice. -/
theorem concurrent_delivery_loses_items :
    (∀ id ∈ [1, 2, 3, 4], planAlternado.filter (deProductor id) = productor id) ∧
    (planAlternado.filter esExtraer).length = 40 ∧
    ejecutar (ColaCircular.nueva 1) [] planAlternado
      = Outcome.ok ({ cola := [409, 309], tam_max := 2, inicio := 0, fin := 1,
                      elementos := 0 },
          [100, 0, 200, 300, 400, 101, 201, 301, 401, 102, 202, 302, 402, 103, 203, 303,
           403, 104, 204, 304, 404, 105, 205, 305, 405, 106, 206, 306, 406, 107, 207, 307,
           407, 108, 208, 308, 408, 109, 209, 309]) ∧
    (∀ id ∈ [1, 2, 3, 4], planDosDeTres.filter (deProductor id) = productor id) ∧
    (planDosDeTres.filter esExtraer).length = 40 ∧
    ejecutar (ColaCircular.nueva 2) [] planDosDeTres
      = Outcome.ok ({ cola := [308, 408], tam_max := 2, inicio := 0, fin := 6,
                      elementos := 0 },
          [100, 200, 300, 400, 0, 0, 301, 401, 103, 203, 303, 403, 104, 204, 304, 404,
           105, 205, 305, 405, 106, 206, 306, 406, 107, 207, 307, 407, 108, 208, 308, 408,
           109, 209, 309, 409, 106, 206, 308, 408]) := by
  refine ⟨by decide, by decide, by decide, by decide, by decide, by decide⟩

/-- C10 (index invariant), evaluated where the code breaks it.  From the fresh
queue of capacity 4, `agregar(1)`, `agregar(2)`, `extraer` all return and
leave `fin = 2` with `tam_max = 2` and a store of 2 slots: `reducirTamano`
halves the store without touching `fin`.  The next `agregar` writes
`cola[2]`, outside the store.  Likewise from capacity 8, three calls of
`agregar` and two of `extraer` leave `inicio = 2` with a store of 2 slots and
one item counted, and the next `extraer` reads `cola[2]`, outside the
store. -/
theorem indices_leave_store :
    ejecutar (ColaCircular.nueva 4) [] [Op.agregar 1, Op.agregar 2, Op.extraer 1]
      = Outcome.ok ({ cola := [1, 2], tam_max := 2, inicio := 1, fin := 2,
                      elementos := 1 }, [1]) ∧
    ColaCircular.agregar
        { cola := [1, 2], tam_max := 2, inicio := 1, fin := 2, elementos := 1 } 3
      = Outcome.outOfBounds ∧
    ejecutar (ColaCircular.nueva 8) []
        [Op.agregar 1, Op.agregar 2, Op.agregar 3, Op.extraer 1, Op.extraer 1]
      = Outcome.ok ({ cola := [1, 2], tam_max := 2, inicio := 2, fin := 3,
                      elementos := 1 }, [1, 2]) ∧
    ColaCircular.extraer
        { cola := [1, 2], tam_max := 2, inicio := 2, fin := 3, elementos := 1 } 1
      = Outcome.outOfBounds := by
  decide

/-- C11 (resize re-linearizes), evaluated where the code breaks it.  Growth:
from the fresh queue of capacity 2, `agregar(1)`, `agregar(2)` grows the
store to 4 slots with `elementos = 2`, and leaves `fin = 0` where the claim
has `fin = 2 mod 4 = 2`.  Shrink: from the fresh queue of capacity 8,
`agregar(1)`, `agregar(2)`, `agregar(3)`, `extraer` shrinks the store to 4
slots with `elementos = 2`, and leaves `inicio = 1` and `fin = 3` where the
claim has `inicio = 0` and `fin = 2`; slots 0 and 1 hold 1 and 2, while the
items still in the queue are 2 and 3. -/
theorem resize_keeps_indices :
    ejecutar (ColaCircular.nueva 2) [] [Op.agregar 1, Op.agregar 2]
      = Outcome.ok ({ cola := [1, 2, 0, 0], tam_max := 4, inicio := 0, fin := 0,
                      elementos := 2 }, []) ∧
    (0 : Nat) ≠ 2 % 4 ∧
    ejecutar (ColaCircular.nueva 8) []
        [Op.agregar 1, Op.agregar 2, Op.agregar 3, Op.extraer 1]
      = Outcome.ok ({ cola := [1, 2, 3, 0], tam_max := 4, inicio := 1, fin := 3,
                      elementos := 2 }, [1]) ∧
    (1 : Nat) ≠ 0 ∧ (3 : Nat) ≠ 2 % 4 ∧
    List.take 2 ([1, 2, 3, 0] : List Int) ≠ [2, 3] := by
  decide

/-- C12 (shrink rule).  Whenever `extraer` returns `true` (so `elementos > 0`
on entry), `elementos` has gone down by exactly 1, and the new `tam_max` is
`tam_max / 2` if `tam_max > 2` and `elementos - 1 <= tam_max / 4`, and the
old `tam_max` otherwise; for `tam_max > 0` the new capacity equals
`tam_max / 2` if and only if that condition holds; a queue with
`tam_max <= 2` keeps its capacity. -/
theorem extraer_shrink_rule (s : ColaCircular) (t : Int) (item : Int) (s1 : ColaCircular)
    (h : s.extraer t = Outcome.ok (some item, s1)) :
    0 < s.elementos ∧ s1.elementos + 1 = s.elementos ∧
    ((s.tam_max > 2 ∧ s.elementos - 1 ≤ s.tam_max / 4) → s1.tam_max = s.tam_max / 2) ∧
    (¬ (s.tam_max > 2 ∧ s.elementos - 1 ≤ s.tam_max / 4) → s1.tam_max = s.tam_max) ∧
    (0 < s.tam_max →
      (s1.tam_max = s.tam_max / 2 ↔ (s.tam_max > 2 ∧ s.elementos - 1 ≤ s.tam_max / 4))) ∧
    (s.tam_max ≤ 2 → s1.tam_max = s.tam_max) := by
  obtain ⟨hpos, -, he, ht, -⟩ := extraer_ok_campos s t item s1 h
  refine ⟨hpos, by omega, ?_, ?_, ?_, ?_⟩
  · intro hc
    rw [ht, if_pos hc]
  · intro hc
    rw [ht, if_neg hc]
  · intro hcap
    constructor
    · intro heq
      by_contra hc
      rw [ht, if_neg hc] at heq
      omega
    · intro hc
      rw [ht, if_pos hc]
  · intro hle
    rw [ht, if_neg (by omega)]

/-- C12 at concrete states: with capacity 8 and 3 items the call shrinks the
queue to capacity 4 and count 2; with capacity 2 and 1 item it keeps
capacity 2. -/
theorem extraer_shrink_rule_witness :
    ((2 : Nat) + 1 = 3 ∧ (4 : Nat) = 8 / 2) ∧ (2 : Nat) = 2 :=
  ⟨⟨(extraer_shrink_rule
      { cola := [1, 2, 3, 0, 0, 0, 0, 0], tam_max := 8, inicio := 0, fin := 3, elementos := 3 }
      1 1
      { cola := [1, 2, 3, 0], tam_max := 4, inicio := 1, fin := 3, elementos := 2 }
      (by decide)).2.1,
    (extraer_shrink_rule
      { cola := [1, 2, 3, 0, 0, 0, 0, 0], tam_max := 8, inicio := 0, fin := 3, elementos := 3 }
      1 1
      { cola := [1, 2, 3, 0], tam_max := 4, inicio := 1, fin := 3, elementos := 2 }
      (by decide)).2.2.1 (by decide)⟩,
   (extraer_shrink_rule
      { cola := [1, 0], tam_max := 2, inicio := 0, fin := 1, elementos := 1 }
      1 1
      { cola := [1, 0], tam_max := 2, inicio := 1, fin := 1, elementos := 0 }
      (by decide)).2.2.2.2.2 (by decide)⟩

/-- C13 (hysteresis prevents thrashing) fails as stated: from the fresh queue
of capacity 2, after `agregar(1)` the call `agregar(2)` grows the queue from
capacity 2 to 4, the immediately following `extraer` shrinks it from 4 to 2
(it leaves count 1, and `4 > 2`, `1 <= 4 / 4`), and the `agregar(3)` right
after that grows it from 2 to 4 again. -/
theorem resize_thrashes_at_two :
    2 ≤ 2 ∧
    Alcanzable 2 { cola := [1, 0], tam_max := 2, inicio := 0, fin := 1, elementos := 1 } ∧
    ColaCircular.agregar
        { cola := [1, 0], tam_max := 2, inicio := 0, fin := 1, elementos := 1 } 2
      = Outcome.ok { cola := [1, 2, 0, 0], tam_max := 4, inicio := 0, fin := 0,
                     elementos := 2 } ∧
    ColaCircular.extraer
        { cola := [1, 2, 0, 0], tam_max := 4, inicio := 0, fin := 0, elementos := 2 } 1
      = Outcome.ok (some 1, { cola := [1, 2], tam_max := 2, inicio := 1, fin := 0,
                              elementos := 1 }) ∧
    ColaCircular.agregar
        { cola := [1, 2], tam_max := 2, inicio := 1, fin := 0, elementos := 1 } 3
      = Outcome.ok { cola := [3, 2, 0, 0], tam_max := 4, inicio := 1, fin := 1,
                     elementos := 2 } ∧
    (2 : Nat) ≠ 4 ∧ (4 : Nat) ≠ 2 := by
  refine ⟨by decide, ⟨[Op.agregar 1], [], by decide⟩, by decide, by decide, by decide,
    by decide, by decide⟩

/-- C13 as amended: in every queue state, if an `agregar` grows the queue from
a capacity other than 2, then the immediately following `extraer` leaves the
capacity as it is; and if an `extraer` shrinks the queue from a capacity of
at least 6, then the immediately following `agregar` leaves the capacity as
it is. -/
theorem hysteresis_away_from_small (s : ColaCircular) :
    (∀ item s1 t r s2, s.tam_max ≠ 2 → s.agregar item = Outcome.ok s1 →
      s1.tam_max ≠ s.tam_max → s1.extraer t = Outcome.ok (r, s2) →
      s2.tam_max = s1.tam_max) ∧
    (∀ t item s1 item2 s2, 6 ≤ s.tam_max → s.extraer t = Outcome.ok (some item, s1) →
      s1.tam_max ≠ s.tam_max → s1.agregar item2 = Outcome.ok s2 →
      s2.tam_max = s1.tam_max) := by
  constructor
  · intro item s1 t r s2 hne h1 hgrow h2
    obtain ⟨hlt, -, he, ht, -⟩ := agregar_ok_campos s item s1 h1
    cases r with
    | none => rw [(extraer_none_estado s1 t s2 h2).2]
    | some v =>
      obtain ⟨-, -, -, ht2, -⟩ := extraer_ok_campos s1 t v s2 h2
      by_cases hfull : s.elementos + 1 = s.tam_max
      · rw [if_pos hfull] at ht
        rw [ht2, if_neg (by omega)]
      · rw [if_neg hfull] at ht
        exact absurd ht hgrow
  · intro t item s1 item2 s2 h6 h1 hshrink h2
    obtain ⟨hpos, -, he, ht, -⟩ := extraer_ok_campos s t item s1 h1
    obtain ⟨-, -, -, ht2, -⟩ := agregar_ok_campos s1 item2 s2 h2
    by_cases hc : s.tam_max > 2 ∧ s.elementos - 1 ≤ s.tam_max / 4
    · rw [if_pos hc] at ht
      rw [ht2, if_neg (by omega)]
    · rw [if_neg hc] at ht
      exact absurd ht hshrink

/-- C13 as amended, at concrete states: growing from capacity 4 to 8 and then
dequeuing keeps capacity 8; shrinking from capacity 8 to 4 and then
enqueuing keeps capacity 4. -/
theorem hysteresis_away_from_small_witness :
    (8 : Nat) = 8 ∧ (4 : Nat) = 4 :=
  ⟨(hysteresis_away_from_small
      { cola := [1, 2, 3, 0], tam_max := 4, inicio := 0, fin := 3, elementos := 3 }).1
      4 { cola := [1, 2, 3, 4, 0, 0, 0, 0], tam_max := 8, inicio := 0, fin := 0, elementos := 4 }
      1 (some 1)
      { cola := [1, 2, 3, 4, 0, 0, 0, 0], tam_max := 8, inicio := 1, fin := 0, elementos := 3 }
      (by decide) (by decide) (by decide) (by decide),
   (hysteresis_away_from_small
      { cola := [1, 2, 3, 0, 0, 0, 0, 0], tam_max := 8, inicio := 0, fin := 3,
        elementos := 3 }).2
      1 1 { cola := [1, 2, 3, 0], tam_max := 4, inicio := 1, fin := 3, elementos := 2 }
      9 { cola := [1, 2, 3, 9], tam_max := 4, inicio := 1, fin := 0, elementos := 3 }
      (by decide) (by decide) (by decide) (by decide)⟩

/-- A value inside the 32-bit signed range is left alone by `int32`. -/
theorem int32_en_rango (x : Int) (h1 : -2147483648 ≤ x) (h2 : x ≤ 2147483647) :
    int32 x = x := by
  unfold int32
  rw [Int.emod_eq_of_lt (by omega) (by omega)]
  omega

/-- C14 (unique payloads).  For producer ids `id1, id2 >= 1` whose largest
payload `id * 100 + 9` fits a 32-bit signed `int`, and iteration indices
`0 <= i1, i2 < 10`, equal payloads come from the same producer and the same
iteration; the payload is then the number `id * 100 + i` itself. -/
theorem itemProductor_injective (id1 i1 id2 i2 : Int)
    (hid1 : 1 ≤ id1) (hid2 : 1 ≤ id2)
    (hmax1 : id1 * 100 + 9 ≤ 2147483647) (hmax2 : id2 * 100 + 9 ≤ 2147483647)
    (hi1 : 0 ≤ i1 ∧ i1 < 10) (hi2 : 0 ≤ i2 ∧ i2 < 10)
    (heq : itemProductor id1 i1 = itemProductor id2 i2) :
    (id1 = id2 ∧ i1 = i2) ∧ itemProductor id1 i1 = id1 * 100 + i1 := by
  have e1 : itemProductor id1 i1 = id1 * 100 + i1 := by
    unfold itemProductor
    rw [int32_en_rango (id1 * 100) (by omega) (by omega),
      int32_en_rango (id1 * 100 + i1) (by omega) (by omega)]
  have e2 : itemProductor id2 i2 = id2 * 100 + i2 := by
    unfold itemProductor
    rw [int32_en_rango (id2 * 100) (by omega) (by omega),
      int32_en_rango (id2 * 100 + i2) (by omega) (by omega)]
  rw [e1, e2] at heq
  exact ⟨by omega, e1⟩

/-- C14 at producer 1, iteration 3. -/
theorem itemProductor_injective_witness :
    ((1 : Int) = 1 ∧ (3 : Int) = 3) ∧ itemProductor 1 3 = 1 * 100 + 3 :=
  itemProductor_injective 1 3 1 3 (by decide) (by decide) (by decide) (by decide)
    (by decide) (by decide) rfl

/-- C15 (never full at rest).  For every initial capacity `c >= 1`, every
state reached from the fresh queue by calls that return (the fresh queue
included) has `elementos < tam_max`: it is never full, and `agregar` called
on it does not wait. -/
theorem never_full_at_rest (c : Nat) (hc : 1 ≤ c) (s : ColaCircular)
    (h : Alcanzable c s) :
    s.elementos < s.tam_max ∧ s.elementos ≠ s.tam_max ∧
      ∀ item, s.agregar item ≠ Outcome.blocks := by
  have hlt := alcanzable_menor c hc s h
  refine ⟨hlt, by omega, ?_⟩
  intro item
  by_cases h2 : s.fin < s.cola.length
  · obtain ⟨s1, h1⟩ := agregar_retorna s item hlt h2
    rw [h1]
    simp
  · simp [ColaCircular.agregar, hlt, h2]

/-- C15 at the state reached from capacity 1 by one `agregar`, which has grown
to capacity 2. -/
theorem never_full_at_rest_witness :
    1 ≤ 1 ∧ Alcanzable 1 { cola := [5, 0], tam_max := 2, inicio := 0, fin := 0,
                           elementos := 1 } ∧
    ((1 : Nat) < 2 ∧ (1 : Nat) ≠ 2 ∧
      ∀ item, ColaCircular.agregar
        { cola := [5, 0], tam_max := 2, inicio := 0, fin := 0, elementos := 1 } item
          ≠ Outcome.blocks) :=
  ⟨by decide, ⟨[Op.agregar 5], [], by decide⟩,
   never_full_at_rest 1 (by decide)
     { cola := [5, 0], tam_max := 2, inicio := 0, fin := 0, elementos := 1 }
     ⟨[Op.agregar 5], [], by decide⟩⟩

/-! ## Page replacement: plans and the furthest-in-future rule -/

theorem mem_setInsert (x y : Int) (s : List Int) : y ∈ setInsert x s ↔ y = x ∨ y ∈ s := by
  unfold setInsert
  split_ifs with h
  · constructor
    · exact fun hy => Or.inr hy
    · rintro (hy | hy)
      · exact hy ▸ h
      · exact hy
  · rw [(List.perm_orderedInsert (· ≤ ·) x s).mem_iff, List.mem_cons]

theorem setInsert_nodup (x : Int) (s : List Int) (hs : s.Nodup) : (setInsert x s).Nodup := by
  unfold setInsert
  split_ifs with h
  · exact hs
  · rw [(List.perm_orderedInsert (· ≤ ·) x s).nodup_iff]
    exact List.nodup_cons.mpr ⟨h, hs⟩

theorem setInsert_toFinset (x : Int) (s : List Int) :
    (setInsert x s).toFinset = insert x s.toFinset := by
  ext y
  rw [List.mem_toFinset, mem_setInsert, Finset.mem_insert, List.mem_toFinset]

theorem setInsert_of_mem (x : Int) (s : List Int) (h : x ∈ s) : setInsert x s = s := by
  unfold setInsert
  rw [if_pos h]

namespace Optimo

end Optimo

namespace FIFO

end FIFO

namespace LRU

end LRU

/-! ### When every page fits -/

theorem sdiff_insert_of_mem (F R : Finset Int) (x : Int) (h : x ∈ F) :
    insert x R \ F = R \ F := by
  ext z
  simp only [Finset.mem_sdiff, Finset.mem_insert]
  constructor
  · rintro ⟨hz | hz, hn⟩
    · exact absurd (hz ▸ h) hn
    · exact ⟨hz, hn⟩
  · rintro ⟨hz, hn⟩
    exact ⟨Or.inr hz, hn⟩

theorem card_sdiff_insert_of_not_mem (F R : Finset Int) (x : Int) (h : x ∉ F) :
    (insert x R \ F).card = (R \ insert x F).card + 1 := by
  have hset : insert x R \ F = insert x (R \ insert x F) := by
    ext z
    simp only [Finset.mem_sdiff, Finset.mem_insert, not_or]
    constructor
    · rintro ⟨hz | hz, hn⟩
      · exact Or.inl hz
      · by_cases hzx : z = x
        · exact Or.inl hzx
        · exact Or.inr ⟨hz, hzx, hn⟩
    · rintro (hz | ⟨hz, _, hn⟩)
      · exact ⟨Or.inl hz, hz ▸ h⟩
      · exact ⟨Or.inr hz, hn⟩
  rw [hset, Finset.card_insert_of_not_mem]
  simp only [Finset.mem_sdiff, Finset.mem_insert, true_or, not_true_eq_false, and_false,
    not_false_eq_true]

theorem union_insert_comm (F R : Finset Int) (x : Int) :
    insert x F ∪ R = F ∪ insert x R := by
  ext z
  simp only [Finset.mem_union, Finset.mem_insert]
  tauto

/-- A page outside a memory whose pages, together with the pages still to
come, fit into `k` frames finds a free frame. -/
theorem cabe_libre (k : Nat) (frames : List Int) (page : Int) (R : Finset Int)
    (hnd : frames.Nodup) (hmem : page ∉ frames)
    (hfit : (frames.toFinset ∪ insert page R).card ≤ k) : ¬ frames.length ≥ k := by
  have hsub : insert page frames.toFinset ⊆ frames.toFinset ∪ insert page R := by
    intro z hz
    rcases Finset.mem_insert.mp hz with h0 | h0
    · exact Finset.mem_union_right _ (Finset.mem_insert.mpr (Or.inl h0))
    · exact Finset.mem_union_left _ h0
  have h1 := Finset.card_le_card hsub
  rw [Finset.card_insert_of_not_mem (fun h0 => hmem (List.mem_toFinset.mp h0)),
    List.toFinset_card_of_nodup hnd] at h1
  omega

namespace Optimo

theorem optimo_cabe (k : Nat) :
    ∀ (resto : List Int) (i : Nat) (frames : List Int) (faults : Nat),
      frames.Nodup → (frames.toFinset ∪ resto.toFinset).card ≤ k →
      loop k i resto frames faults = faults + (resto.toFinset \ frames.toFinset).card := by
  intro resto
  induction resto with
  | nil =>
    intro i frames faults _ _
    simp only [loop, List.toFinset_nil, Finset.empty_sdiff, Finset.card_empty, Nat.add_zero]
  | cons page resto ih =>
    intro i frames faults hnd hfit
    rw [List.toFinset_cons] at hfit ⊢
    by_cases hmem : page ∈ frames
    · have hfit1 : (frames.toFinset ∪ resto.toFinset).card ≤ k :=
        le_trans (Finset.card_le_card (Finset.union_subset_union (Finset.Subset.refl _)
          (Finset.subset_insert page _))) hfit
      simp only [loop, if_pos hmem]
      rw [ih (i + 1) frames faults hnd hfit1,
        sdiff_insert_of_mem _ _ page (List.mem_toFinset.mpr hmem)]
    · have hfree := cabe_libre k frames page _ hnd hmem hfit
      have hfit1 : ((setInsert page frames).toFinset ∪ resto.toFinset).card ≤ k := by
        rw [setInsert_toFinset, union_insert_comm]
        exact hfit
      simp only [loop, if_neg hmem, if_neg hfree]
      rw [ih (i + 1) _ (faults + 1) (setInsert_nodup _ _ hnd) hfit1, setInsert_toFinset,
        card_sdiff_insert_of_not_mem _ _ page (fun h0 => hmem (List.mem_toFinset.mp h0))]
      omega

end Optimo

namespace FIFO

theorem fifo_cabe (k : Nat) :
    ∀ (resto frames frameSet : List Int) (faults : Nat),
      frames.Nodup → (∀ x, x ∈ frameSet ↔ x ∈ frames) →
      (frames.toFinset ∪ resto.toFinset).card ≤ k →
      loop k resto frames frameSet faults
        = Corrida.ok (faults + (resto.toFinset \ frames.toFinset).card) := by
  intro resto
  induction resto with
  | nil =>
    intro frames frameSet faults _ _ _
    simp only [loop, List.toFinset_nil, Finset.empty_sdiff, Finset.card_empty, Nat.add_zero]
  | cons page resto ih =>
    intro frames frameSet faults hnd hset hfit
    rw [List.toFinset_cons] at hfit ⊢
    by_cases hmem : page ∈ frameSet
    · have hmemf : page ∈ frames := (hset page).mp hmem
      have hfit1 : (frames.toFinset ∪ resto.toFinset).card ≤ k :=
        le_trans (Finset.card_le_card (Finset.union_subset_union (Finset.Subset.refl _)
          (Finset.subset_insert page _))) hfit
      simp only [loop, if_pos hmem]
      rw [ih frames frameSet faults hnd hset hfit1,
        sdiff_insert_of_mem _ _ page (List.mem_toFinset.mpr hmemf)]
    · have hmemf : page ∉ frames := fun h0 => hmem ((hset page).mpr h0)
      have hfree := cabe_libre k frames page _ hnd hmemf hfit
      have hndn : (frames ++ [page]).Nodup := by
        rw [List.nodup_append]
        refine ⟨hnd, List.nodup_singleton page, ?_⟩
        intro a ha hb
        rw [List.mem_singleton] at hb
        exact hmemf (hb ▸ ha)
      have hsetn : ∀ x, x ∈ setInsert page frameSet ↔ x ∈ frames ++ [page] := by
        intro x
        rw [mem_setInsert, hset x, List.mem_append, List.mem_singleton]
        exact Or.comm
      have hfin : (frames ++ [page]).toFinset = insert page frames.toFinset := by
        ext y
        simp only [List.mem_toFinset, List.mem_append, List.mem_singleton, Finset.mem_insert]
        exact Or.comm
      have hfit1 : ((frames ++ [page]).toFinset ∪ resto.toFinset).card ≤ k := by
        rw [hfin, union_insert_comm]
        exact hfit
      simp only [loop, if_neg hmem, if_neg hfree]
      rw [ih _ _ (faults + 1) hndn hsetn hfit1, hfin,
        card_sdiff_insert_of_not_mem _ _ page (fun h0 => hmemf (List.mem_toFinset.mp h0))]
      congr 1
      omega

end FIFO

namespace LRU

theorem lru_cabe (k : Nat) :
    ∀ (resto frames frameSet : List Int) (faults : Nat),
      frames.Nodup → (∀ x, x ∈ frameSet ↔ x ∈ frames) →
      (frames.toFinset ∪ resto.toFinset).card ≤ k →
      loop k resto frames frameSet faults
        = Corrida.ok (faults + (resto.toFinset \ frames.toFinset).card) := by
  intro resto
  induction resto with
  | nil =>
    intro frames frameSet faults _ _ _
    simp only [loop, List.toFinset_nil, Finset.empty_sdiff, Finset.card_empty, Nat.add_zero]
  | cons page resto ih =>
    intro frames frameSet faults hnd hset hfit
    rw [List.toFinset_cons] at hfit ⊢
    by_cases hmem : page ∈ frameSet
    · have hmemf : page ∈ frames := (hset page).mp hmem
      have hndn : (page :: frames.filter (fun f => f ≠ page)).Nodup := by
        refine List.nodup_cons.mpr ⟨?_, hnd.filter _⟩
        simp only [List.mem_filter, ne_eq, decide_not, Bool.not_eq_eq_eq_not, Bool.not_true,
          decide_eq_false_iff_not, not_true_eq_false, and_false, not_false_eq_true]
      have hmemn : ∀ x, x ∈ page :: frames.filter (fun f => f ≠ page) ↔ x ∈ frames := by
        intro x
        simp only [List.mem_cons, List.mem_filter, ne_eq, decide_not, Bool.not_eq_eq_eq_not,
          Bool.not_true, decide_eq_false_iff_not]
        constructor
        · rintro (h0 | ⟨h0, _⟩)
          · exact h0 ▸ hmemf
          · exact h0
        · intro h0
          by_cases hx : x = page
          · exact Or.inl hx
          · exact Or.inr ⟨h0, hx⟩
      have hfin : (page :: frames.filter (fun f => f ≠ page)).toFinset = frames.toFinset := by
        ext y
        rw [List.mem_toFinset, List.mem_toFinset]
        exact hmemn y
      have hsetn : ∀ x, x ∈ setInsert page frameSet
          ↔ x ∈ page :: frames.filter (fun f => f ≠ page) := by
        intro x
        rw [setInsert_of_mem page frameSet hmem, hset x]
        exact (hmemn x).symm
      have hfit1 : ((page :: frames.filter (fun f => f ≠ page)).toFinset
          ∪ resto.toFinset).card ≤ k := by
        rw [hfin]
        exact le_trans (Finset.card_le_card (Finset.union_subset_union (Finset.Subset.refl _)
          (Finset.subset_insert page _))) hfit
      simp only [loop, if_pos hmem]
      rw [ih _ _ faults hndn hsetn hfit1, hfin,
        sdiff_insert_of_mem _ _ page (List.mem_toFinset.mpr hmemf)]
    · have hmemf : page ∉ frames := fun h0 => hmem ((hset page).mpr h0)
      have hfree := cabe_libre k frames page _ hnd hmemf hfit
      have hndn : (page :: frames).Nodup := List.nodup_cons.mpr ⟨hmemf, hnd⟩
      have hsetn : ∀ x, x ∈ setInsert page frameSet ↔ x ∈ page :: frames := by
        intro x
        rw [mem_setInsert, hset x, List.mem_cons]
      have hfit1 : ((page :: frames).toFinset ∪ resto.toFinset).card ≤ k := by
        rw [List.toFinset_cons, union_insert_comm]
        exact hfit
      simp only [loop, if_neg hmem, if_neg hfree]
      rw [ih _ _ (faults + 1) hndn hsetn hfit1, List.toFinset_cons,
        card_sdiff_insert_of_not_mem _ _ page (fun h0 => hmemf (List.mem_toFinset.mp h0))]
      congr 1
      omega

end LRU

namespace Clock

/-- Clearing a set use bit lowers the number of set bits by one. -/
theorem count_set_false (u : List Bool) (p : Nat) (h : u[p]? = some true) :
    (u.set p false).count true + 1 = u.count true := by
  induction u generalizing p with
  | nil => simp at h
  | cons b bs ih =>
    cases p with
    | zero =>
      simp only [List.getElem?_cons_zero, Option.some.injEq] at h
      subst h
      rw [List.set_cons_zero, List.count_cons_self,
        List.count_cons_of_ne (by decide : (true : Bool) ≠ false)]
    | succ q =>
      simp only [List.getElem?_cons_succ] at h
      have h1 := ih q h
      cases b
      · simp only [List.set_cons_succ, ne_eq, Bool.false_eq_true, not_false_eq_true,
          List.count_cons_of_ne]
        exact h1
      · simp only [List.set_cons_succ, List.count_cons_self]
        omega

/-- The inner loop exits after at most as many iterations as there are set
use bits, with the pointer inside the frame table. -/
theorem barrer_ok (k : Nat) :
    ∀ (c : Nat) (useBit : List Bool) (pointer : Nat),
      useBit.count true = c → useBit.length = k → pointer < k →
      ∃ u1 p1, u1.length = k ∧ p1 < k ∧
        ∀ fuel, c ≤ fuel → barrer k fuel useBit pointer = Corrida.ok (u1, p1) := by
  intro c
  induction c with
  | zero =>
    intro useBit pointer hc hlen hp
    have hget : useBit[pointer]? = some false := by
      rw [List.getElem?_eq_getElem (by omega)]
      have hnot : useBit[pointer] ≠ true := by
        intro h0
        have hmem : true ∈ useBit := h0 ▸ List.getElem_mem (by omega)
        exact absurd hc (Nat.ne_of_gt (List.count_pos_iff.mpr hmem))
      cases hb : useBit[pointer]
      · rfl
      · exact absurd hb hnot
    refine ⟨useBit, pointer, hlen, hp, ?_⟩
    intro fuel _
    cases fuel <;> simp only [barrer, hget]
  | succ c ih =>
    intro useBit pointer hc hlen hp
    cases hb : useBit[pointer]? with
    | none =>
      rw [List.getElem?_eq_none_iff] at hb
      omega
    | some b =>
      cases b with
      | false =>
        refine ⟨useBit, pointer, hlen, hp, ?_⟩
        intro fuel _
        cases fuel <;> simp only [barrer, hb]
      | true =>
        have hcount := count_set_false useBit pointer hb
        have hk : 0 < k := by omega
        obtain ⟨u1, p1, hl1, hp1, hrun⟩ := ih (useBit.set pointer false)
          ((pointer + 1) % k) (by omega) (by rw [List.length_set]; exact hlen)
          (Nat.mod_lt _ hk)
        refine ⟨u1, p1, hl1, hp1, ?_⟩
        intro fuel hfuel
        obtain ⟨fuel1, rfl⟩ : ∃ fuel1, fuel = fuel1 + 1 := ⟨fuel - 1, by omega⟩
        simp only [barrer, hb]
        exact hrun fuel1 (by omega)

/-- With at least one frame the loop of `Clock::simulate` returns, granting
`numFrames` iterations to each run of the inner loop is enough, and the
number of faults lies between the number of pages still to come that are in
no frame and the number of references still to come. -/
theorem clock_loop_cotas (k : Nat) (hk : 1 ≤ k) :
    ∀ (resto frames : List Int) (useBit : List Bool) (pointer faults : Nat),
      frames.length = k → useBit.length = k → pointer < k →
      ∃ f, faults + (resto.toFinset \ frames.toFinset).card ≤ f ∧
        f ≤ faults + resto.length ∧
        ∀ fuel, k ≤ fuel →
          loop fuel k resto frames useBit pointer faults = Corrida.ok f := by
  intro resto
  induction resto with
  | nil =>
    intro frames useBit pointer faults _ _ _
    refine ⟨faults, ?_, ?_, ?_⟩
    · simp only [List.toFinset_nil, Finset.empty_sdiff, Finset.card_empty, Nat.add_zero,
        le_refl]
    · simp only [List.length_nil, Nat.add_zero, le_refl]
    · intro fuel _
      simp only [loop]
  | cons page resto ih =>
    intro frames useBit pointer faults hfl hul hp
    rw [List.toFinset_cons, List.length_cons]
    by_cases hmem : page ∈ frames
    · have hidx : frames.indexOf page < useBit.length := by
        rw [hul, ← hfl]
        exact List.indexOf_lt_length.mpr hmem
      obtain ⟨f, hf1, hf2, hrun⟩ := ih frames (useBit.set (frames.indexOf page) true)
        pointer faults hfl (by rw [List.length_set]; exact hul) hp
      refine ⟨f, ?_, by omega, ?_⟩
      · rw [sdiff_insert_of_mem _ _ page (List.mem_toFinset.mpr hmem)]
        exact hf1
      · intro fuel hfuel
        simp only [loop, if_pos hmem, if_pos hidx]
        exact hrun fuel hfuel
    · obtain ⟨u1, p1, hl1, hp1, hsweep⟩ := barrer_ok k (useBit.count true) useBit pointer
        rfl hul hp
      have hcount : useBit.count true ≤ k := hul ▸ List.count_le_length true useBit
      obtain ⟨f, hf1, hf2, hrun⟩ := ih (frames.set p1 page) (u1.set p1 true)
        ((p1 + 1) % k) (faults + 1) (by rw [List.length_set]; exact hfl)
        (by rw [List.length_set]; exact hl1) (Nat.mod_lt _ (by omega))
      refine ⟨f, ?_, by omega, ?_⟩
      · have hsub : insert page resto.toFinset \ frames.toFinset
            ⊆ insert page (resto.toFinset \ (frames.set p1 page).toFinset) := by
          intro z
          simp only [Finset.mem_sdiff, Finset.mem_insert, List.mem_toFinset]
          rintro ⟨hz | hz, hn⟩
          · exact Or.inl hz
          · by_cases hzp : z = page
            · exact Or.inl hzp
            · refine Or.inr ⟨hz, fun h0 => ?_⟩
              rcases List.mem_or_eq_of_mem_set h0 with h1 | h1
              · exact hn h1
              · exact hzp h1
        have h1 := Finset.card_le_card hsub
        have h2 := Finset.card_insert_le page (resto.toFinset \ (frames.set p1 page).toFinset)
        omega
      · intro fuel hfuel
        have hcond : p1 < frames.length ∧ p1 < u1.length := ⟨by omega, by omega⟩
        simp only [loop, if_neg hmem, hsweep fuel (by omega), if_pos hcond]
        exact hrun fuel hfuel

/-- With at least one frame `Clock::simulate` returns, the same value for
every grant of at least `numFrames` iterations per run of the inner loop; the
value is at least the number of distinct pages other than `-1` and at most
the number of references. -/
theorem clock_simulate_cotas (references : List Int) (k : Nat) (hk : 1 ≤ k) :
    ∃ f, (references.toFinset.erase (-1)).card ≤ f ∧ f ≤ references.length ∧
      ∀ fuel, k ≤ fuel → simulateCon fuel references k = Corrida.ok f := by
  obtain ⟨f, hf1, hf2, hrun⟩ := clock_loop_cotas k hk references (List.replicate k (-1))
    (List.replicate k false) 0 0 (List.length_replicate k _) (List.length_replicate k _)
    (by omega)
  refine ⟨f, ?_, by omega, fun fuel hfuel => hrun fuel hfuel⟩
  have hsub : references.toFinset.erase (-1)
      ⊆ references.toFinset \ (List.replicate k (-1 : Int)).toFinset := by
    intro z
    simp only [Finset.mem_erase, Finset.mem_sdiff, List.mem_toFinset]
    rintro ⟨hz1, hz2⟩
    exact ⟨hz2, fun h0 => hz1 (List.eq_of_mem_replicate h0)⟩
  have := Finset.card_le_card hsub
  omega

end Clock

/-! ## Claims on the page-replacement simulators -/

/-- C17 (cold misses only when everything fits).  For every reference list
whose number `d` of distinct pages is at most `numFrames`, with
`numFrames >= 1`, each of `Optimo::simulate`, `FIFO::simulate` and
`LRU::simulate` returns exactly `d`. -/
theorem cold_misses_when_fits (references : List Int) (numFrames : Nat)
    (hk : 1 ≤ numFrames) (hd : references.dedup.length ≤ numFrames) :
    Optimo.simulate references numFrames = references.dedup.length ∧
    FIFO.simulate references numFrames = Corrida.ok references.dedup.length ∧
    LRU.simulate references numFrames = Corrida.ok references.dedup.length := by
  have hfit : (([] : List Int).toFinset ∪ references.toFinset).card ≤ numFrames := by
    rw [List.toFinset_nil, Finset.empty_union, List.card_toFinset]
    exact hd
  have hcard : (references.toFinset \ ([] : List Int).toFinset).card
      = references.dedup.length := by
    rw [List.toFinset_nil, Finset.sdiff_empty, List.card_toFinset]
  refine ⟨?_, ?_, ?_⟩
  · unfold Optimo.simulate
    rw [Optimo.optimo_cabe numFrames references 0 [] 0 List.nodup_nil hfit, hcard,
      Nat.zero_add]
  · unfold FIFO.simulate
    rw [FIFO.fifo_cabe numFrames references [] [] 0 List.nodup_nil (fun _ => Iff.rfl) hfit,
      hcard, Nat.zero_add]
  · unfold LRU.simulate
    rw [LRU.lru_cabe numFrames references [] [] 0 List.nodup_nil (fun _ => Iff.rfl) hfit,
      hcard, Nat.zero_add]

/-- C17 on the reference list 7 8 7 9 8 7 (3 distinct pages) with 3 frames. -/
theorem cold_misses_when_fits_witness :
    ([7, 8, 7, 9, 8, 7] : List Int).dedup.length = 3 ∧
    Optimo.simulate [7, 8, 7, 9, 8, 7] 3 = ([7, 8, 7, 9, 8, 7] : List Int).dedup.length ∧
    FIFO.simulate [7, 8, 7, 9, 8, 7] 3
      = Corrida.ok ([7, 8, 7, 9, 8, 7] : List Int).dedup.length ∧
    LRU.simulate [7, 8, 7, 9, 8, 7] 3
      = Corrida.ok ([7, 8, 7, 9, 8, 7] : List Int).dedup.length :=
  ⟨by decide, cold_misses_when_fits [7, 8, 7, 9, 8, 7] 3 (by decide) (by decide)⟩

/-- C18 (Clock counts every first reference as a fault), evaluated where the
code breaks it.  The frame table starts filled with `-1`, so a reference to
page `-1` while a frame is still unused is found in the table and taken as a
hit: on the reference list `-1` with 1 frame `Clock::simulate` returns 0,
below the 1 distinct page of the list, where `FIFO`, `LRU` and `Optimo`
return 1; on the list `-1 5 -1` with 2 frames it returns 1, below the 2
distinct pages. -/
theorem clock_misses_page_minus_one :
    Clock.simulate [-1] 1 = Corrida.ok 0 ∧
    ([-1] : List Int).dedup.length = 1 ∧
    FIFO.simulate [-1] 1 = Corrida.ok 1 ∧
    LRU.simulate [-1] 1 = Corrida.ok 1 ∧
    Optimo.simulate [-1] 1 = 1 ∧
    Clock.simulate [-1, 5, -1] 2 = Corrida.ok 1 ∧
    ([-1, 5, -1] : List Int).dedup.length = 2 := by
  decide

/-- C19 (the clock hand sweep terminates).  For every reference list and every
`numFrames >= 1`, `Clock::simulate` returns: granting each run of the inner
`while` loop `numFrames` iterations is enough, a larger grant gives the same
result, and no index leaves the frame table (the run never ends in
`indefinido`).  For the inner loop alone: from any `numFrames` use bits and a
pointer below `numFrames` it exits within `numFrames` iterations with the
pointer below `numFrames`. -/
theorem clock_sweep_terminates (references : List Int) (numFrames : Nat)
    (hk : 1 ≤ numFrames) :
    (∃ f, Clock.simulate references numFrames = Corrida.ok f ∧
      ∀ fuel, numFrames ≤ fuel →
        Clock.simulateCon fuel references numFrames = Corrida.ok f) ∧
    (∀ (useBit : List Bool) (pointer : Nat),
      useBit.length = numFrames → pointer < numFrames →
      ∃ u1 p1, Clock.barrer numFrames numFrames useBit pointer = Corrida.ok (u1, p1) ∧
        u1.length = numFrames ∧ p1 < numFrames) := by
  constructor
  · obtain ⟨f, -, -, hrun⟩ := Clock.clock_simulate_cotas references numFrames hk
    exact ⟨f, hrun numFrames (le_refl _), hrun⟩
  · intro useBit pointer hlen hp
    obtain ⟨u1, p1, hl1, hp1, hrun⟩ := Clock.barrer_ok numFrames (useBit.count true)
      useBit pointer rfl hlen hp
    exact ⟨u1, p1, hrun numFrames (hlen ▸ List.count_le_length true useBit), hl1, hp1⟩

/-- C19 on the reference list 1 2 3 1 4 with 2 frames, and on the inner loop
started with both use bits set. -/
theorem clock_sweep_terminates_witness :
    1 ≤ 2 ∧
    Clock.simulate [1, 2, 3, 1, 4] 2 = Corrida.ok 5 ∧
    Clock.barrer 2 2 [true, true] 1 = Corrida.ok ([false, false], 1) ∧
    ((∃ f, Clock.simulate [1, 2, 3, 1, 4] 2 = Corrida.ok f ∧
      ∀ fuel, 2 ≤ fuel → Clock.simulateCon fuel [1, 2, 3, 1, 4] 2 = Corrida.ok f) ∧
    (∀ (useBit : List Bool) (pointer : Nat),
      useBit.length = 2 → pointer < 2 →
      ∃ u1 p1, Clock.barrer 2 2 useBit pointer = Corrida.ok (u1, p1) ∧
        u1.length = 2 ∧ p1 < 2)) :=
  ⟨by decide, by decide, by decide, clock_sweep_terminates [1, 2, 3, 1, 4] 2 (by decide)⟩
